import Mathlib

/-!
Verification of the recipe-planner persistence and normalization core.

The development shallowly embeds the TypeScript sources:
* a JSON value model together with executable models of the platform
  functions `JSON.parse` (a fuel-based recursive-descent parser) and
  `JSON.stringify` (a renderer; it prints compactly, while the code calls
  `JSON.stringify(data, null, 2)` — the two differ only in insignificant
  whitespace, which the parser skips);
* the two revisions of `services/aiService.ts` found in the repository
  (`AiServiceV1` is the o3-mini revision whose `MenuItem` carries a
  `detail` field and a string `time`; `AiServiceV2` is the revision with
  `parseTimeToNumber` and numeric `time`);
* the record store of `store/database.ts` (`menuDB`, `settingsDB`,
  `exportData`, `importData`) and the `addMenu` action of
  `store/index.ts`.

Numbers are modelled as integers (`JSON.parse` accepts fraction and
exponent syntax; the model keeps the integer part — no property under
study observes a non-integer number).  `createdAt` is stored as the
integer epoch value `new Date(r.createdAt).getTime()` of the ISO-8601
timestamp.  JS strings with lone surrogates are not representable, so the
string parser rejects `\uXXXX` escapes in the surrogate range.
-/

namespace RecipePlanner

/-- JSON values, as produced by `JSON.parse` and consumed by
`JSON.stringify`. -/
inductive Json where
  | null
  | bool (b : Bool)
  | num (n : Int)
  | str (s : String)
  | arr (elems : List Json)
  | obj (fields : List (String × Json))
deriving Repr, Inhabited

namespace Json

/-- JS truthiness of a JSON value (`NaN` cannot arise from parsing). -/
def truthy : Json → Bool
  | .null => false
  | .bool b => b
  | .num n => decide (n ≠ 0)
  | .str s => decide (s ≠ "")
  | .arr _ => true
  | .obj _ => true

/-- JS property read `value[key]` on a non-`null` value: a lookup on an
object (the last occurrence wins, as with duplicate keys in
`JSON.parse`), `undefined` (here `none`) on anything else. -/
def member : Json → String → Option Json
  | .obj fields, key => fields.foldl (fun acc f => if f.1 = key then some f.2 else acc) none
  | _, _ => none

/-- JS property read `value[key]` including the `TypeError` thrown when
`value` is `null`. -/
def memberOrThrow : Json → String → Except Unit (Option Json)
  | .null, _ => .error ()
  | j, key => .ok (j.member key)

end Json

/-- The whitespace skipped by `JSON.parse`. -/
def isJsonWs (c : Char) : Bool :=
  c = ' ' || c = '\t' || c = '\n' || c = '\r'

def skipWs (cs : List Char) : List Char :=
  cs.dropWhile isJsonWs

/-- Single-character JSON string escapes. -/
def unescapeChar : Char → Option Char
  | '"' => some '"'
  | '\\' => some '\\'
  | '/' => some '/'
  | 'b' => some (Char.ofNat 8)
  | 'f' => some (Char.ofNat 12)
  | 'n' => some '\n'
  | 'r' => some '\r'
  | 't' => some '\t'
  | _ => none

def hexDigitVal (c : Char) : Option Nat :=
  if '0' ≤ c ∧ c ≤ '9' then some (c.toNat - 48)
  else if 'a' ≤ c ∧ c ≤ 'f' then some (c.toNat - 87)
  else if 'A' ≤ c ∧ c ≤ 'F' then some (c.toNat - 55)
  else none

def hex4 (a b c d : Char) : Option Nat := do
  let va ← hexDigitVal a
  let vb ← hexDigitVal b
  let vc ← hexDigitVal c
  let vd ← hexDigitVal d
  some (((va * 16 + vb) * 16 + vc) * 16 + vd)

/-- Body of a JSON string literal, after the opening quote: returns the
decoded characters and the input following the closing quote. -/
def parseStrBody : List Char → Option (List Char × List Char)
  | [] => none
  | c :: rest =>
    if c = '"' then some ([], rest)
    else if c = '\\' then
      match rest with
      | [] => none
      | e :: rest2 =>
        if e = 'u' then
          match rest2 with
          | h1 :: h2 :: h3 :: h4 :: rest3 => do
            let v ← hex4 h1 h2 h3 h4
            if v < 55296 ∨ (57344 ≤ v ∧ v < 1114112) then
              let (s, r) ← parseStrBody rest3
              some (Char.ofNat v :: s, r)
            else none
          | _ => none
        else do
          let ec ← unescapeChar e
          let (s, r) ← parseStrBody rest2
          some (ec :: s, r)
    else if c.toNat < 32 then none
    else do
      let (s, r) ← parseStrBody rest
      some (c :: s, r)

/-- Decimal value of a digit string. -/
def digitsVal (ds : List Char) : Nat :=
  ds.foldl (fun acc c => acc * 10 + (c.toNat - 48)) 0

/-- JSON number parser.  Fraction and exponent parts are consumed
syntactically; the value kept is the signed integer part. -/
def parseNumber (cs : List Char) : Option (Int × List Char) :=
  let cs1 := if cs.head? = some '-' then cs.tail else cs
  let ds := cs1.takeWhile Char.isDigit
  let r1 := cs1.dropWhile Char.isDigit
  if ds.isEmpty then none
  else
    let r2 :=
      if r1.head? = some '.' then
        if (r1.tail.takeWhile Char.isDigit).isEmpty then r1
        else r1.tail.dropWhile Char.isDigit
      else r1
    let r3 :=
      if r2.head? = some 'e' ∨ r2.head? = some 'E' then
        let t2 := if r2.tail.head? = some '+' ∨ r2.tail.head? = some '-' then
          r2.tail.tail else r2.tail
        if (t2.takeWhile Char.isDigit).isEmpty then r2 else t2.dropWhile Char.isDigit
      else r2
    some (if cs.head? = some '-' then -(Int.ofNat (digitsVal ds))
          else Int.ofNat (digitsVal ds), r3)

mutual

/-- Recursive-descent JSON value parser (the fuel only bounds nesting;
`Json.parse` supplies enough for any input). -/
def parseVal : Nat → List Char → Option (Json × List Char)
  | 0, _ => none
  | fuel + 1, cs =>
    match skipWs cs with
    | [] => none
    | c :: rest =>
      if c = '"' then (parseStrBody rest).map fun p => (.str (String.mk p.1), p.2)
      else if c = '[' then
        let rest2 := skipWs rest
        if rest2.head? = some ']' then some (.arr [], rest2.tail)
        else (parseElems fuel rest2).map fun p => (.arr p.1, p.2)
      else if c = '\x7b' then
        let rest2 := skipWs rest
        if rest2.head? = some '\x7d' then some (.obj [], rest2.tail)
        else (parseMembers fuel rest2).map fun p => (.obj p.1, p.2)
      else if c = 'n' then
        if rest.take 3 = ['u', 'l', 'l'] then some (.null, rest.drop 3) else none
      else if c = 't' then
        if rest.take 3 = ['r', 'u', 'e'] then some (.bool true, rest.drop 3) else none
      else if c = 'f' then
        if rest.take 4 = ['a', 'l', 's', 'e'] then some (.bool false, rest.drop 4) else none
      else (parseNumber (c :: rest)).map fun p => (.num p.1, p.2)

/-- Comma-separated array elements, up to and including the closing
bracket. -/
def parseElems : Nat → List Char → Option (List Json × List Char)
  | 0, _ => none
  | fuel + 1, cs => do
    let (v, r) ← parseVal fuel cs
    let r1 := skipWs r
    if r1.head? = some ',' then do
      let (vs, r3) ← parseElems fuel r1.tail
      some (v :: vs, r3)
    else if r1.head? = some ']' then some ([v], r1.tail)
    else none

/-- Comma-separated object members, up to and including the closing
brace. -/
def parseMembers : Nat → List Char → Option (List (String × Json) × List Char)
  | 0, _ => none
  | fuel + 1, cs =>
    match skipWs cs with
    | '"' :: rest => do
      let (k, r) ← parseStrBody rest
      let r1 := skipWs r
      if r1.head? = some ':' then do
        let (v, r3) ← parseVal fuel r1.tail
        let r4 := skipWs r3
        if r4.head? = some ',' then do
          let (fs, r5) ← parseMembers fuel r4.tail
          some ((String.mk k, v) :: fs, r5)
        else if r4.head? = some '\x7d' then some ([(String.mk k, v)], r4.tail)
        else none
      else none
    | _ => none

end

/-- Model of `JSON.parse`: `none` models a thrown `SyntaxError`. -/
def Json.parse (s : String) : Option Json :=
  match parseVal (2 * s.length + 2) s.data with
  | some (v, rest) => if (skipWs rest).isEmpty then some v else none
  | none => none

/-- Hexadecimal digit character (lowercase), for `\u00xx` escapes. -/
def hexDigitChar (n : Nat) : Char :=
  if n < 10 then Char.ofNat (48 + n) else Char.ofNat (87 + n)

/-- The escape sequence `JSON.stringify` emits for one character. -/
def escapeChar (c : Char) : List Char :=
  if c = '"' then ['\\', '"']
  else if c = '\\' then ['\\', '\\']
  else if c = Char.ofNat 8 then ['\\', 'b']
  else if c = '\t' then ['\\', 't']
  else if c = '\n' then ['\\', 'n']
  else if c = Char.ofNat 12 then ['\\', 'f']
  else if c = '\r' then ['\\', 'r']
  else if c.toNat < 32 then
    ['\\', 'u', '0', '0', hexDigitChar (c.toNat / 16), hexDigitChar (c.toNat % 16)]
  else [c]

def escChars (l : List Char) : List Char :=
  l.foldr (fun c acc => escapeChar c ++ acc) []

def renderString (s : String) : List Char :=
  '"' :: escChars s.data ++ ['"']

/-- Decimal digits of `n`, most significant first (fuel-based; the fuel
`n + 1` always suffices). -/
def natDigitsAux : Nat → Nat → List Char
  | 0, _ => []
  | fuel + 1, n =>
    if n < 10 then [Char.ofNat (48 + n)]
    else natDigitsAux fuel (n / 10) ++ [Char.ofNat (48 + n % 10)]

def natDigits (n : Nat) : List Char :=
  natDigitsAux (n + 1) n

def renderInt (n : Int) : List Char :=
  if n < 0 then '-' :: natDigits n.natAbs else natDigits n.toNat

mutual

/-- Model of `JSON.stringify` (compact form; see the header note). -/
def renderJson : Json → List Char
  | .null => ['n', 'u', 'l', 'l']
  | .bool b => if b then ['t', 'r', 'u', 'e'] else ['f', 'a', 'l', 's', 'e']
  | .num n => renderInt n
  | .str s => renderString s
  | .arr [] => ['[', ']']
  | .arr (x :: xs) => '[' :: (renderJson x ++ renderElems xs) ++ [']']
  | .obj [] => ['\x7b', '\x7d']
  | .obj (f :: fs) =>
    '\x7b' :: (renderString f.1 ++ ':' :: renderJson f.2 ++ renderMembers fs) ++ ['\x7d']

/-- Renders `,e1,e2,...` for the elements after the first. -/
def renderElems : List Json → List Char
  | [] => []
  | x :: xs => ',' :: renderJson x ++ renderElems xs

/-- Renders `,"k1":v1,...` for the members after the first. -/
def renderMembers : List (String × Json) → List Char
  | [] => []
  | f :: fs => ',' :: renderString f.1 ++ ':' :: renderJson f.2 ++ renderMembers fs

end

def Json.render (j : Json) : String :=
  String.mk (renderJson j)

mutual

/-- Parser fuel sufficient for a value (one unit per `parseVal` /
`parseElems` / `parseMembers` step). -/
def fuelV : Json → Nat
  | .null => 1
  | .bool _ => 1
  | .num _ => 1
  | .str _ => 1
  | .arr xs => 1 + fuelE xs
  | .obj fs => 1 + fuelM fs

def fuelE : List Json → Nat
  | [] => 0
  | x :: xs => 1 + max (fuelV x) (fuelE xs)

def fuelM : List (String × Json) → Nat
  | [] => 0
  | f :: fs => 1 + max (fuelV f.2) (fuelM fs)

end


/-- Model of `content.match(/\[[\s\S]*\]/)`: greedy, so the match (when
any) runs from the first `[` in the string to the last `]` after it. -/
def extractJsonArray (s : String) : Option String :=
  let cs := s.data
  match cs.findIdx? (· = '[') with
  | none => none
  | some i =>
    match cs.reverse.findIdx? (· = ']') with
    | none => none
    | some rj =>
      let j := cs.length - 1 - rj
      if i < j then some (String.mk ((cs.drop i).take (j - i + 1))) else none

/-- `typeof x === 'string'` on a possibly-`undefined` property. -/
def isStrOpt : Option Json → Bool
  | some (.str _) => true
  | _ => false

/-- `Array.isArray(x)` on a possibly-`undefined` property. -/
def isArrOpt : Option Json → Bool
  | some (.arr _) => true
  | _ => false

/-- `Array.isArray(x) ? x : []`. -/
def asArr : Option Json → List Json
  | some (.arr xs) => xs
  | _ => []

/-- Reads a property validated to be a string (the default branch is
unreachable after `isValidMenuItem`). -/
def strOf : Option Json → String
  | some (.str s) => s
  | _ => ""

/-- `typeof x === 'string' || typeof x === 'number' || typeof x ===
'undefined'` for the `time` property. -/
def isTimeOpt : Option Json → Bool
  | some (.str _) => true
  | some (.num _) => true
  | none => true
  | _ => false

/-- `typeof item === 'object' && item !== null` (arrays are objects in
JS; they fail the later property checks instead). -/
def isObjLike : Json → Bool
  | .obj _ => true
  | .arr _ => true
  | _ => false

/-- JS `x || d` on a possibly-`undefined` value. -/
def jsOr (o : Option Json) (d : Json) : Json :=
  match o with
  | some v => if v.truthy then v else d
  | none => d

/-- Whether the second list starts with the first one. -/
def leadsWith : List Char → List Char → Bool
  | [], _ => true
  | _ :: _, [] => false
  | m :: ms, c :: cs => m = c && leadsWith ms cs

/-!
First revision of `services/aiService.ts` (the o3-mini revision):
`MenuItem` has a `detail` field and keeps `time` as delivered
(string-or-number, defaulted to the string `'30分'`).
-/

namespace AiServiceV1

structure MenuItem where
  title : String
  description : String
  detail : String
  ingredients : List Json
  steps : List Json
  time : Json

/-- `isValidMenuItem` of revision 1: requires a string `detail`. -/
def isValidMenuItem (item : Json) : Bool :=
  isObjLike item &&
  isStrOpt (item.member "title") &&
  isStrOpt (item.member "description") &&
  isStrOpt (item.member "detail") &&
  isArrOpt (item.member "ingredients") &&
  isArrOpt (item.member "steps") &&
  isTimeOpt (item.member "time")

/-- The record built for a validated item. -/
def normalizeItem (item : Json) : MenuItem :=
  { title := strOf (item.member "title")
    description := strOf (item.member "description")
    detail := strOf (item.member "detail")  -- item.detail || '' (equal on validated items)
    ingredients := asArr (item.member "ingredients")
    steps := asArr (item.member "steps")
    time := jsOr (item.member "time") (.str "30分") }

/-- The `parsedData.map` loop: any invalid item throws, aborting the
whole batch. -/
def normalizeItems (xs : List Json) : Option (List MenuItem) :=
  xs.mapM fun item => if isValidMenuItem item then some (normalizeItem item) else none

/-- `fallbackParseMenuResponse` of revision 1: five fixed menus. -/
def fallbackParseMenuResponse : List MenuItem :=
  [{ title := "醤油バター炒め"
     description := "醤油とバターのコクが決め手の濃厚炒め物"
     detail := "しっかりとした醤油ベースの味付けにバターのコクをプラスし、野菜の甘みと肉の旨みが調和した栄養バランスの良い一品です。"
     ingredients := [.str "野菜 適量", .str "肉類 200g", .str "醤油 大さじ2", .str "バター 20g", .str "油 大さじ1"]
     steps := [.str "野菜を適当な大きさに切る", .str "フライパンに油を熱する", .str "肉類を炒める", .str "野菜を加えて炒める", .str "醤油とバターで味を整える"]
     time := .str "15分" },
   { title := "ソース焼きそば"
     description := "甘辛ソースが食欲をそそる定番焼きそば"
     detail := "甘辛い専用ソースでシンプルに仕上げた、家族みんなが喜ぶ定番料理です。野菜と麺がソースに絡んで絶品です。"
     ingredients := [.str "焼きそば麺 2玉", .str "キャベツ 200g", .str "豚肉 100g", .str "焼きそばソース 大さじ3"]
     steps := [.str "キャベツを千切りにする", .str "豚肉を一口大に切る", .str "フライパンで豚肉を炒める", .str "キャベツと麺を加えて炒める", .str "ソースで味付けする"]
     time := .str "10分" },
   { title := "醤油だし卵かけご飯"
     description := "醤油の旨みが引き立つシンプル和食"
     detail := "新鮮な卵と温かいご飯に醤油の旨みをプラスした、手軽で栄養満点の和食の原点とも言える一品です。"
     ingredients := [.str "ご飯 1膳分", .str "卵 1個", .str "醤油 小さじ1", .str "のり 適量"]
     steps := [.str "温かいご飯を茶碗に盛る", .str "卵を割り入れる", .str "醤油をかける", .str "よく混ぜて完成"]
     time := .str "2分" },
   { title := "塩胡椒野菜炒め"
     description := "シンプルな塩胡椒で素材の味を活かした炒め物"
     detail := "シンプルな塩胡椒の味付けで野菜本来の甘みと食感を楽しめる、ヘルシーで軽やかな炒め物です。"
     ingredients := [.str "ミックス野菜 300g", .str "塩 小さじ1", .str "胡椒 少々", .str "油 大さじ1"]
     steps := [.str "野菜を食べやすい大きさに切る", .str "フライパンを強火で熱する", .str "油を入れて野菜を炒める", .str "塩胡椒で味を整える", .str "シャキシャキ感を残して完成"]
     time := .str "8分" },
   { title := "甘辛照り焼きチキン"
     description := "甘辛い照り焼きソースが絶品のジューシーチキン"
     detail := "醤油ベースの甘辛い照り焼きソースがチキンによく絡み、ご飯との相性も抜群の満足感ある一品です。"
     ingredients := [.str "鶏もも肉 300g", .str "醤油 大さじ2", .str "みりん 大さじ2", .str "砂糖 大さじ1", .str "油 大さじ1"]
     steps := [.str "鶏肉を一口大に切る", .str "フライパンに油を熱する", .str "鶏肉の皮目から焼く", .str "調味料を混ぜてタレを作る", .str "タレを絡めて照りよく仕上げる"]
     time := .str "20分" }]

/-- The `try` body of `parseMenuResponse`: `none` models any of its
`throw` sites (no array found, parse failure, non-array, invalid item,
empty batch). -/
def parseAttempt (content : String) : Option (List MenuItem) :=
  match extractJsonArray content with
  | none => none
  | some jsonString =>
    match Json.parse jsonString with
    | none => none
    | some parsed =>
      match parsed with
      | .arr xs =>
        (match normalizeItems xs with
         | none => none
         | some menus => if menus.isEmpty then none else some menus)
      | _ => none

/-- `parseMenuResponse`: the `catch` recovers with the fallback list,
which is a fixed value and cannot itself fail, so the rethrow branch is
dead and the function is total. -/
def parseMenuResponse (content : String) : List MenuItem :=
  (parseAttempt content).getD fallbackParseMenuResponse

end AiServiceV1

/-!
Second revision of `services/aiService.ts`: no `detail` field, and
`time` normalized to integer minutes via `parseTimeToNumber`.
-/

namespace AiServiceV2

structure MenuItem where
  title : String
  description : String
  ingredients : List Json
  steps : List Json
  time : Int
deriving Repr

/-- Left-to-right pass of `scanNumBefore`: `acc` carries the value of
the digit run currently being read (`none` outside a run). -/
def scanNumAux (marker : List Char) : Option Nat → List Char → Option Nat
  | _, [] => none
  | acc, c :: rest =>
    if c.isDigit then
      let acc2 := acc.getD 0 * 10 + (c.toNat - 48)
      if leadsWith marker rest then some acc2
      else scanNumAux marker (some acc2) rest
    else scanNumAux marker none rest

/-- Leftmost match of the regex `(\d+)marker` for a marker that does not
start with a digit (here `分` or `時間`): the value of the first digit
run immediately followed by `marker`. -/
def scanNumBefore (marker cs : List Char) : Option Nat :=
  scanNumAux marker none cs

/-- The `totalMinutes` accumulated from the `(\d+)時間` and `(\d+)分`
matches: hours times 60 plus minutes, each 0 when its pattern is
absent. -/
def hourMinTotal (s : String) : Nat :=
  (scanNumBefore ['時', '間'] s.data).getD 0 * 60 + (scanNumBefore ['分'] s.data).getD 0

/-- The string branch of `parseTimeToNumber`: a digit-only string
(`^(\d+)$`) parses directly; otherwise the summed components are used,
with `undefined` on a zero total. -/
def parseTimeOfStr (s : String) : Option Int :=
  if !s.data.isEmpty && s.data.all Char.isDigit then some (Int.ofNat (digitsVal s.data))
  else if 0 < hourMinTotal s then some (Int.ofNat (hourMinTotal s)) else none

/-- `parseTimeToNumber`: numbers pass through, strings go through
`parseTimeOfStr`, and anything else (including `undefined`) is
`undefined`. -/
def parseTimeToNumber : Option Json → Option Int
  | some (.num n) => some n
  | some (.str s) => parseTimeOfStr s
  | _ => none

/-- The expression `this.parseTimeToNumber(item.time) || 30` (both
`undefined` and `0` are falsy). -/
def parsedTimeOrDefault (t : Option Json) : Int :=
  match parseTimeToNumber t with
  | some n => if n = 0 then 30 else n
  | none => 30

/-- `isValidMenuItem` of revision 2: no `detail` requirement. -/
def isValidMenuItem (item : Json) : Bool :=
  isObjLike item &&
  isStrOpt (item.member "title") &&
  isStrOpt (item.member "description") &&
  isArrOpt (item.member "ingredients") &&
  isArrOpt (item.member "steps") &&
  isTimeOpt (item.member "time")

def normalizeItem (item : Json) : MenuItem :=
  { title := strOf (item.member "title")
    description := strOf (item.member "description")
    ingredients := asArr (item.member "ingredients")
    steps := asArr (item.member "steps")
    time := parsedTimeOrDefault (item.member "time") }

def normalizeItems (xs : List Json) : Option (List MenuItem) :=
  xs.mapM fun item => if isValidMenuItem item then some (normalizeItem item) else none

/-- `fallbackParseMenuResponse` of revision 2: one fixed menu. -/
def fallbackParseMenuResponse : List MenuItem :=
  [{ title := "簡単炒め物"
     description := "冷蔵庫の残り物を使った簡単で美味しい炒め物です。"
     ingredients := [.str "野菜", .str "肉類", .str "調味料"]
     steps := [.str "野菜を適当な大きさに切る", .str "フライパンに油を熱する", .str "肉類を炒める", .str "野菜を加えて炒める", .str "調味料で味を整える"]
     time := 15 }]

def parseAttempt (content : String) : Option (List MenuItem) :=
  match extractJsonArray content with
  | none => none
  | some jsonString =>
    match Json.parse jsonString with
    | none => none
    | some parsed =>
      match parsed with
      | .arr xs =>
        (match normalizeItems xs with
         | none => none
         | some menus => if menus.isEmpty then none else some menus)
      | _ => none

def parseMenuResponse (content : String) : List MenuItem :=
  (parseAttempt content).getD fallbackParseMenuResponse

end AiServiceV2

/-!
The record store of `store/database.ts`.  IndexedDB is modelled as the
list of stored records (every read path either re-sorts or is
order-insensitive, so the backend's key order is immaterial); `id` is
the key path, so insertion with an existing `id` throws.
-/

/-- A stored menu record (`MenuRecord` of `types/index.ts`).
`createdAt` is the epoch value `new Date(r.createdAt).getTime()` of the
ISO-8601 timestamp string. -/
structure MenuRecord where
  id : String
  title : String
  description : String
  ingredients : List String
  steps : List String
  time : Int
  theme : String
  peoplePattern : String
  createdAt : Int
  inputIngredients : List String
  isAdopted : Option Bool
deriving DecidableEq, Repr

/-- `AppSettings`: the two optional API keys. -/
structure AppSettings where
  openaiKey : Option String
  claudeKey : Option String
deriving DecidableEq, Repr

/-- The two object stores of `MenuPlannerDB`: the `menus` table and the
`settings` blob (`none` when never saved). -/
structure DBState where
  menus : List MenuRecord
  settings : Option AppSettings
deriving DecidableEq, Repr

namespace menuDB

/-- The comparator `(a, b) => new Date(b.createdAt).getTime() - new
Date(a.createdAt).getTime()` as a relation: `a` sorts no later than `b`
when `b`'s timestamp is at most `a`'s. -/
def newestFirst (a b : MenuRecord) : Prop :=
  b.createdAt ≤ a.createdAt

instance : DecidableRel newestFirst := fun a b =>
  inferInstanceAs (Decidable (b.createdAt ≤ a.createdAt))

/-- `getAll()`: fetches every record and re-sorts by creation timestamp
descending (newest first). -/
def getAll (menus : List MenuRecord) : List MenuRecord :=
  menus.insertionSort newestFirst

/-- `add(menu)`: IndexedDB `add` with key path `id` throws
(`ConstraintError`, here `none`) when the key already exists. -/
def add (menus : List MenuRecord) (menu : MenuRecord) : Option (List MenuRecord) :=
  if menus.any (fun m => m.id = menu.id) then none else some (menus ++ [menu])

/-- `get(id)`. -/
def get (menus : List MenuRecord) (id : String) : Option MenuRecord :=
  menus.find? (fun m => m.id = id)

/-- `isDuplicate(title, description)`: exact string equality on both
fields against every stored record. -/
def isDuplicate (menus : List MenuRecord) (title description : String) : Bool :=
  menus.any (fun menu => menu.title = title && menu.description = description)

/-- `update(menu)`: IndexedDB `put` overwrites the value at the record's
key, inserting when the key is absent. -/
def update (menus : List MenuRecord) (menu : MenuRecord) : List MenuRecord :=
  if menus.any (fun m => m.id = menu.id) then
    menus.map (fun m => if m.id = menu.id then menu else m)
  else menus ++ [menu]

/-- `clear()`. -/
def clear (_menus : List MenuRecord) : List MenuRecord := []

end menuDB

namespace settingsDB

/-- `settingsDB.get()`: `result?.value || {}`. -/
def get (settings : Option AppSettings) : AppSettings :=
  settings.getD ⟨none, none⟩

/-- `settingsDB.save(settings)`. -/
def save (_old : Option AppSettings) (s : AppSettings) : Option AppSettings :=
  some s

end settingsDB

/-- Outcome of the `addMenu` store action (`store/index.ts`): saved, or
refused as a duplicate (`'この献立は既に保存されています'`), or failed
because `menuDB.add` threw (`'献立の保存に失敗しました'`). -/
inductive AddMenuOutcome where
  | saved
  | duplicate
  | failed
deriving DecidableEq, Repr

/-- The `addMenu` action: checks `isDuplicate` first and refuses the
insert on a positive match, leaving the store unchanged. -/
def addMenu (st : DBState) (menu : MenuRecord) : DBState × AddMenuOutcome :=
  if menuDB.isDuplicate st.menus menu.title menu.description then
    (st, .duplicate)
  else
    match menuDB.add st.menus menu with
    | some ms => ({ st with menus := ms }, .saved)
    | none => (st, .failed)

/-- A sequence of `addMenu` operations applied to the empty store. -/
def applyInserts (ops : List MenuRecord) : DBState :=
  ops.foldl (fun st m => (addMenu st m).1) ⟨[], none⟩

/-- No two records share the same (title, description) pair. -/
def NoDupPairs (ms : List MenuRecord) : Prop :=
  ms.Pairwise (fun a b => ¬(a.title = b.title ∧ a.description = b.description))

/-!
The backup codec of `store/database.ts` (`exportData` / `importData`).
Records and settings cross the JSON boundary through the encoders below
(JS stores the parsed objects verbatim; a document element that is not a
well-formed record is modelled as a failing `add`, matching IndexedDB's
rejection of values missing the `id` key path — no property under study
exercises a malformed-but-keyed element).
-/

def encodeSettings (s : AppSettings) : Json :=
  Json.obj
    ((match s.openaiKey with | some k => [("openaiKey", Json.str k)] | none => []) ++
     (match s.claudeKey with | some k => [("claudeKey", Json.str k)] | none => []))

def decodeSettings (j : Json) : AppSettings :=
  { openaiKey := match j.member "openaiKey" with | some (.str s) => some s | _ => none
    claudeKey := match j.member "claudeKey" with | some (.str s) => some s | _ => none }

def encodeRecord (r : MenuRecord) : Json :=
  Json.obj
    ([("id", .str r.id), ("title", .str r.title), ("description", .str r.description),
      ("ingredients", .arr (r.ingredients.map .str)),
      ("steps", .arr (r.steps.map .str)),
      ("time", .num r.time),
      ("theme", .str r.theme),
      ("peoplePattern", .str r.peoplePattern),
      ("createdAt", .num r.createdAt),
      ("inputIngredients", .arr (r.inputIngredients.map .str))] ++
     (match r.isAdopted with | some b => [("isAdopted", Json.bool b)] | none => []))

def strField (j : Json) (key : String) : Option String :=
  match j.member key with
  | some (.str s) => some s
  | _ => none

def intField (j : Json) (key : String) : Option Int :=
  match j.member key with
  | some (.num n) => some n
  | _ => none

def decStr : Json → Option String
  | .str s => some s
  | _ => none

def strListField (j : Json) (key : String) : Option (List String) :=
  match j.member key with
  | some (.arr xs) => xs.mapM decStr
  | _ => none

def optBoolField (j : Json) (key : String) : Option Bool :=
  match j.member key with
  | some (.bool b) => some b
  | _ => none

def decodeRecord (j : Json) : Option MenuRecord := do
  let id ← strField j "id"
  let title ← strField j "title"
  let description ← strField j "description"
  let ingredients ← strListField j "ingredients"
  let steps ← strListField j "steps"
  let time ← intField j "time"
  let theme ← strField j "theme"
  let peoplePattern ← strField j "peoplePattern"
  let createdAt ← intField j "createdAt"
  let inputIngredients ← strListField j "inputIngredients"
  some
    { id := id, title := title, description := description, ingredients := ingredients
      steps := steps, time := time, theme := theme, peoplePattern := peoplePattern
      createdAt := createdAt, inputIngredients := inputIngredients
      isAdopted := optBoolField j "isAdopted" }

/-- The document object built by `exportData` before `JSON.stringify`:
`menus` is `menuDB.getAll()`'s output, `settings` the current settings
object, plus the export timestamp (a parameter, as `new
Date().toISOString()` is environmental). -/
def exportObj (st : DBState) (exportDate : String) : Json :=
  .obj [("menus", .arr ((menuDB.getAll st.menus).map encodeRecord)),
        ("settings", encodeSettings (settingsDB.get st.settings)),
        ("exportDate", .str exportDate)]

/-- `exportData()`: the serialized backup document. -/
def exportData (st : DBState) (exportDate : String) : String :=
  (exportObj st exportDate).render

/-- Outcome of `importData`: completion, or the thrown
`'インポートデータの形式が正しくありません'` error. -/
inductive ImportOutcome where
  | ok
  | invalidFormat
deriving DecidableEq, Repr

/-- The `for (const menu of data.menus) await menuDB.add(menu)` loop:
returns the table contents and whether the loop completed; a throwing
`add` aborts the loop, leaving the records added so far. -/
def importMenusLoop (menus : List MenuRecord) (xs : List Json) : List MenuRecord × Bool :=
  match xs with
  | [] => (menus, true)
  | x :: rest =>
    match decodeRecord x with
    | none => (menus, false)
    | some r =>
      match menuDB.add menus r with
      | none => (menus, false)
      | some ms => importMenusLoop ms rest

/-- The body of `importData` after `JSON.parse` succeeded.  The clear
runs before any inspection of the document's fields; reading
`data.menus` throws only when `data` is `null` (and then after the
clear); `data.menus && Array.isArray(data.menus)` holds exactly when the
field is an array, and `data.settings` is saved whenever truthy. -/
def importFromData (data : Json) (st : DBState) : DBState × ImportOutcome :=
  let cleared : DBState := ⟨menuDB.clear st.menus, st.settings⟩
  match data.memberOrThrow "menus" with
  | .error _ => (cleared, .invalidFormat)
  | .ok menusField =>
    let (ms, completed) :=
      match menusField with
      | some (Json.arr xs) => importMenusLoop [] xs
      | _ => ([], true)
    if completed then
      match data.member "settings" with
      | some sj =>
        if sj.truthy then (⟨ms, settingsDB.save st.settings (decodeSettings sj)⟩, .ok)
        else (⟨ms, st.settings⟩, .ok)
      | none => (⟨ms, st.settings⟩, .ok)
    else (⟨ms, st.settings⟩, .invalidFormat)

/-- `importData(jsonData)`: a `JSON.parse` failure is caught before
anything was mutated; afterwards the destructive replace runs. -/
def importData (jsonData : String) (st : DBState) : DBState × ImportOutcome :=
  match Json.parse jsonData with
  | none => (st, .invalidFormat)
  | some data => importFromData data st

/-- Record ids are pairwise distinct (the store invariant maintained by
the `id` key path). -/
def UniqueIds (ms : List MenuRecord) : Prop :=
  ms.Pairwise (fun a b => a.id ≠ b.id)

instance : IsTotal MenuRecord menuDB.newestFirst :=
  ⟨fun a b => Int.le_total b.createdAt a.createdAt⟩

instance : IsTrans MenuRecord menuDB.newestFirst :=
  ⟨fun _ _ _ h1 h2 => le_trans h2 h1⟩

/-- Concrete record used by witnesses (id `a`, oldest). -/
def recA : MenuRecord :=
  { id := "a", title := "Stir-fry", description := "quick veg stir-fry"
    ingredients := ["vegetables"], steps := ["fry"], time := 15
    theme := "春", peoplePattern := "夫婦2人", createdAt := 0
    inputIngredients := ["vegetables"], isAdopted := none }

/-- Concrete record used by witnesses (id `b`, newest). -/
def recB : MenuRecord :=
  { id := "b", title := "Soup", description := "warm soup"
    ingredients := ["water"], steps := ["boil"], time := 20
    theme := "冬", peoplePattern := "中高生3人", createdAt := 1
    inputIngredients := ["water"], isAdopted := some true }

/-- Concrete two-record store with an OpenAI key, used by witnesses. -/
def stAB : DBState :=
  ⟨[recA, recB], some ⟨some "sk-test", none⟩⟩


/-- A record whose (title, description) collides with `recA` under a
fresh id, used by the C1 witness. -/
def recDup : MenuRecord :=
  { recB with id := "c", title := "Stir-fry", description := "quick veg stir-fry" }

/-- `recA` under the fresh id `c`, used by the C9 witness. -/
def recC : MenuRecord :=
  { recA with id := "c" }

/-- A list whose head (if any) cannot extend a JSON value: the
delimiters that follow a rendered value inside a document. -/
def delim : List Char → Bool
  | [] => true
  | c :: _ => c = ',' || c = ']' || c = '\x7d'

/-- Characters that can start a rendered JSON value. -/
def isValueStart (c : Char) : Bool :=
  c = 'n' || c = 't' || c = 'f' || c = '"' || c = '[' || c = '\x7b' || c = '-' || c.isDigit

/-!
## Theorems
-/

theorem isDuplicate_iff (ms : List MenuRecord) (t d : String) :
    menuDB.isDuplicate ms t d = true ↔ ∃ m ∈ ms, m.title = t ∧ m.description = d := by
  simp [menuDB.isDuplicate]

theorem addMenu_of_duplicate {st : DBState} {m : MenuRecord}
    (h : menuDB.isDuplicate st.menus m.title m.description = true) :
    addMenu st m = (st, .duplicate) := by
  simp [addMenu, h]

theorem addMenu_preserves_noDupPairs (st : DBState) (m : MenuRecord)
    (h : NoDupPairs st.menus) : NoDupPairs (addMenu st m).1.menus := by
  unfold addMenu
  by_cases hdup : menuDB.isDuplicate st.menus m.title m.description = true
  · simpa [hdup] using h
  · rw [if_neg hdup]
    unfold menuDB.add
    by_cases hid : st.menus.any (fun x => x.id = m.id) = true
    · simpa [hid] using h
    · rw [if_neg hid]
      simp only
      rw [NoDupPairs, List.pairwise_append]
      refine ⟨h, List.pairwise_singleton _ _, ?_⟩
      intro a ha b hb
      rw [List.mem_singleton] at hb
      rintro ⟨ht, hd2⟩
      rw [hb] at ht hd2
      exact hdup ((isDuplicate_iff st.menus m.title m.description).2 ⟨a, ha, ht, hd2⟩)

theorem applyInserts_noDupPairs (ops : List MenuRecord) :
    NoDupPairs (applyInserts ops).menus := by
  suffices h : ∀ st : DBState, NoDupPairs st.menus →
      NoDupPairs (ops.foldl (fun st m => (addMenu st m).1) st).menus by
    exact h ⟨[], none⟩ List.Pairwise.nil
  induction ops with
  | nil => intro st h; exact h
  | cons m rest ih =>
    intro st h
    exact ih _ (addMenu_preserves_noDupPairs st m h)

/-- Claim C1: the duplicate guard maintains the uniqueness invariant —
after any sequence of inserts into the empty store no two records share
the same (title, description) pair; an insert whose pair matches an
existing record is refused with the duplicate error and leaves the store
unchanged; and `isDuplicate` holds exactly when some stored record has
exactly equal title and exactly equal description. -/
theorem claim_c1_duplicate_guard (ops : List MenuRecord) (st : DBState)
    (m : MenuRecord) (t d : String) :
    NoDupPairs (applyInserts ops).menus ∧
    (menuDB.isDuplicate st.menus m.title m.description = true →
      addMenu st m = (st, .duplicate)) ∧
    (menuDB.isDuplicate st.menus t d = true ↔
      ∃ r ∈ st.menus, r.title = t ∧ r.description = d) :=
  ⟨applyInserts_noDupPairs ops,
   fun h => addMenu_of_duplicate h,
   isDuplicate_iff st.menus t d⟩

/-- Witness for C1 at a concrete store: inserting a record whose
(title, description) matches the stored `recA` is refused and leaves the
store unchanged. -/
theorem claim_c1_duplicate_guard_witness :
    addMenu stAB recDup = (stAB, .duplicate) :=
  (claim_c1_duplicate_guard [] stAB recDup "" "").2.1 (by decide)

/-- Claim C4: `getAll()` returns the stored records re-sorted into
non-increasing creation-timestamp order — the output is sorted newest
first and is a permutation of the table contents, regardless of
insertion order. -/
theorem claim_c4_getAll_sorted (menus : List MenuRecord) :
    (menuDB.getAll menus).Pairwise (fun a b => b.createdAt ≤ a.createdAt) ∧
    (menuDB.getAll menus).Perm menus :=
  ⟨List.sorted_insertionSort menuDB.newestFirst menus,
   List.perm_insertionSort menuDB.newestFirst menus⟩

theorem find?_map_replace (r : MenuRecord) :
    ∀ ms : List MenuRecord, ms.any (fun m => m.id = r.id) = true →
      (ms.map (fun m => if m.id = r.id then r else m)).find?
        (fun m => m.id = r.id) = some r := by
  intro ms
  induction ms with
  | nil => intro h; cases h
  | cons hd tl ih =>
    intro h
    by_cases hhd : hd.id = r.id
    · simp only [List.map_cons, if_pos hhd]
      rw [List.find?_cons_of_pos _ (by simp)]
    · simp only [List.map_cons, if_neg hhd]
      rw [List.find?_cons_of_neg _ (by simpa using hhd)]
      apply ih
      simpa [hhd] using h

theorem get_update_self (ms : List MenuRecord) (r : MenuRecord) :
    menuDB.get (menuDB.update ms r) r.id = some r := by
  unfold menuDB.update menuDB.get
  cases hid : ms.any (fun m => m.id = r.id) with
  | true =>
    rw [if_pos rfl]
    exact find?_map_replace r ms hid
  | false =>
    rw [if_neg (by simp)]
    rw [List.find?_append]
    have h1 : ms.find? (fun m => m.id = r.id) = none := by
      rw [List.find?_eq_none]
      intro x hx
      rw [List.any_eq_false] at hid
      simpa using hid x hx
    simp [h1]

theorem update_insert_of_fresh {ms : List MenuRecord} {r : MenuRecord}
    (h : ms.any (fun m => m.id = r.id) = false) :
    menuDB.update ms r = ms ++ [r] := by
  unfold menuDB.update
  rw [if_neg (by simp [h])]

/-- Claim C9 (implicit): `update(record)` is an upsert — it always
succeeds, silently inserting the record when its id is absent instead of
raising a not-found error, and afterwards `get(record.id)` returns the
record. -/
theorem claim_c9_update_upsert (ms : List MenuRecord) (r : MenuRecord) :
    menuDB.get (menuDB.update ms r) r.id = some r ∧
    (ms.any (fun m => m.id = r.id) = false → menuDB.update ms r = ms ++ [r]) :=
  ⟨get_update_self ms r, fun h => update_insert_of_fresh h⟩

/-- Witness for C9: updating the two-record store with a record of fresh
id `c` inserts it, and `get` then returns it. -/
theorem claim_c9_update_upsert_witness :
    menuDB.get (menuDB.update stAB.menus recC) recC.id = some recC ∧
    menuDB.update stAB.menus recC = stAB.menus ++ [recC] :=
  ⟨(claim_c9_update_upsert stAB.menus recC).1,
   (claim_c9_update_upsert stAB.menus recC).2 (by decide)⟩

theorem parseAttempt_ne_nil {s : String} {ms : List AiServiceV1.MenuItem}
    (h : AiServiceV1.parseAttempt s = some ms) : ms ≠ [] := by
  unfold AiServiceV1.parseAttempt at h
  repeat' split at h
  all_goals simp_all [List.isEmpty_iff]

/-- Claim C2: the revision-1 normalizer is total — for every input
string `parseMenuResponse` returns a non-empty list, and the result is
either the successfully parsed-and-validated batch or the fixed
hardcoded fallback list; in particular no error escapes its boundary
(the function is a total function into lists) and the empty list is
never returned. -/
theorem claim_c2_normalizer_total (s : String) :
    AiServiceV1.parseMenuResponse s ≠ [] ∧
    (AiServiceV1.parseAttempt s = some (AiServiceV1.parseMenuResponse s) ∨
      AiServiceV1.parseMenuResponse s = AiServiceV1.fallbackParseMenuResponse) := by
  unfold AiServiceV1.parseMenuResponse
  rcases h : AiServiceV1.parseAttempt s with _ | ms
  · refine ⟨?_, Or.inr rfl⟩
    simp [AiServiceV1.fallbackParseMenuResponse]
  · exact ⟨by simpa using parseAttempt_ne_nil h, Or.inl (by simp)⟩

/-- Claim C6: duration parsing — `"1時間30分"` parses to 90 minutes
(hours·60 + minutes), the bare numeric string `"45"` parses to 45, and
whenever `parseTimeToNumber` yields no value the normalized time falls
back to the fixed default 30. -/
theorem claim_c6_duration :
    AiServiceV2.parseTimeToNumber (some (.str "1時間30分")) = some 90 ∧
    AiServiceV2.parseTimeToNumber (some (.str "45")) = some 45 ∧
    ∀ t, AiServiceV2.parseTimeToNumber t = none →
      AiServiceV2.parsedTimeOrDefault t = 30 := by
  refine ⟨rfl, rfl, fun t h => ?_⟩
  unfold AiServiceV2.parsedTimeOrDefault
  rw [h]

/-- Witness for C6: the unparseable string `"abc"` yields no parsed
value, so the normalized time is the default 30. -/
theorem claim_c6_duration_witness :
    AiServiceV2.parsedTimeOrDefault (some (.str "abc")) = 30 :=
  claim_c6_duration.2.2 (some (.str "abc")) rfl

/-- Claim C8: feeding the revision-2 normalizer the fenced response
`"Here you go:\n```json\n[{"title":"T",...}]\n```"` returns exactly one
item with title `T`, description `D`, and the duration defaulted to 30
(the bracket-delimited array substring is extracted and parsed). -/
theorem claim_c8_fenced_scenario :
    AiServiceV2.parseMenuResponse
        "Here you go:\n```json\n[\x7b\"title\":\"T\",\"description\":\"D\",\"ingredients\":[],\"steps\":[]\x7d]\n```" =
      [{ title := "T", description := "D", ingredients := [], steps := [], time := 30 }] := by
  rfl

theorem parseTime_str_nonneg {s : String} {n : Int}
    (h : AiServiceV2.parseTimeToNumber (some (.str s)) = some n) : 0 ≤ n := by
  have h2 : AiServiceV2.parseTimeOfStr s = some n := h
  unfold AiServiceV2.parseTimeOfStr at h2
  split at h2
  · cases h2
    exact Int.natCast_nonneg _
  · split at h2
    · cases h2
      exact Int.natCast_nonneg _
    · cases h2

/-- Claim C10 (implicit): the normalized time of an item whose raw
duration is a string is always strictly positive, and it is the default
30 whenever the duration string matches no pattern
(`parseTimeToNumber` is `undefined`) or its components sum to zero. -/
theorem claim_c10_time_positive (s : String) :
    0 < AiServiceV2.parsedTimeOrDefault (some (.str s)) ∧
    ((AiServiceV2.parseTimeToNumber (some (.str s)) = none ∨
      AiServiceV2.parseTimeToNumber (some (.str s)) = some 0) →
      AiServiceV2.parsedTimeOrDefault (some (.str s)) = 30) := by
  constructor
  · unfold AiServiceV2.parsedTimeOrDefault
    rcases h : AiServiceV2.parseTimeToNumber (some (.str s)) with _ | n
    · norm_num
    · have hn : 0 ≤ n := parseTime_str_nonneg h
      show 0 < if n = 0 then 30 else n
      by_cases h0 : n = 0
      · rw [if_pos h0]; norm_num
      · rw [if_neg h0]; omega
  · intro h
    unfold AiServiceV2.parsedTimeOrDefault
    rcases h with h | h <;> rw [h]
    norm_num

/-- Witness for C10: `"0分"` matches the minute pattern but sums to
zero, so the normalized time is the default 30 (and positive). -/
theorem claim_c10_time_positive_witness :
    0 < AiServiceV2.parsedTimeOrDefault (some (.str "0分")) ∧
    AiServiceV2.parsedTimeOrDefault (some (.str "0分")) = 30 :=
  ⟨(claim_c10_time_positive "0分").1,
   (claim_c10_time_positive "0分").2 (Or.inl rfl)⟩

/-! ### Character and digit-string facts used by the codec proofs -/

theorem digit_toNat {c : Char} (h : c.isDigit = true) :
    48 ≤ c.toNat ∧ c.toNat ≤ 57 := by
  simp only [Char.isDigit, Bool.and_eq_true, decide_eq_true_eq, ge_iff_le] at h
  obtain ⟨h1, h2⟩ := h
  rw [UInt32.le_def, BitVec.le_def] at h1 h2
  exact ⟨h1, h2⟩

theorem char_ne_of_toNat_ne {c d : Char} (h : c.toNat ≠ d.toNat) : c ≠ d :=
  fun e => h (congrArg Char.toNat e)

theorem digit_char_ne {c d : Char} (h : c.isDigit = true)
    (hd : d.toNat < 48 ∨ 57 < d.toNat) : c ≠ d := by
  have h2 := digit_toNat h
  apply char_ne_of_toNat_ne
  omega

theorem digit_not_ws {c : Char} (h : c.isDigit = true) : isJsonWs c = false := by
  have h2 := digit_toNat h
  simp only [isJsonWs, Bool.or_eq_false_iff, decide_eq_false_iff_not]
  refine ⟨⟨⟨?_, ?_⟩, ?_⟩, ?_⟩ <;> (apply char_ne_of_toNat_ne; simp; omega)

theorem digitChar_spec {k : Nat} (hk : k < 10) :
    (Char.ofNat (48 + k)).isDigit = true ∧ (Char.ofNat (48 + k)).toNat = 48 + k := by
  interval_cases k <;> exact ⟨by decide, by decide⟩

theorem hexDigitVal_hexDigitChar {k : Nat} (hk : k < 16) :
    hexDigitVal (hexDigitChar k) = some k := by
  interval_cases k <;> decide

theorem takeWhile_dropWhile_append {p : Char → Bool} :
    ∀ l rest : List Char, l.all p = true → (∀ c, rest.head? = some c → p c = false) →
      (l ++ rest).takeWhile p = l ∧ (l ++ rest).dropWhile p = rest := by
  intro l
  induction l with
  | nil =>
    intro rest _ hrest
    cases rest with
    | nil => exact ⟨rfl, rfl⟩
    | cons c t =>
      have hc := hrest c rfl
      simp [List.takeWhile_cons, List.dropWhile_cons, hc]
  | cons a l ih =>
    intro rest hall hrest
    rw [List.all_cons, Bool.and_eq_true] at hall
    have h2 := ih rest hall.2 hrest
    simp [List.takeWhile_cons, List.dropWhile_cons, hall.1, h2.1, h2.2]

theorem digitsVal_append_singleton (xs : List Char) (c : Char) :
    digitsVal (xs ++ [c]) = 10 * digitsVal xs + (c.toNat - 48) := by
  simp [digitsVal, List.foldl_append]
  omega

theorem natDigitsAux_spec :
    ∀ fuel n, n < fuel →
      (natDigitsAux fuel n).all Char.isDigit = true ∧
      natDigitsAux fuel n ≠ [] ∧
      digitsVal (natDigitsAux fuel n) = n := by
  intro fuel
  induction fuel with
  | zero => intro n hn; omega
  | succ fuel ih =>
    intro n hn
    unfold natDigitsAux
    by_cases h10 : n < 10
    · rw [if_pos h10]
      obtain ⟨hdig, htn⟩ := digitChar_spec h10
      refine ⟨by simp [hdig], by simp, ?_⟩
      simp [digitsVal, htn]
    · rw [if_neg h10]
      have hrec := ih (n / 10) (by omega)
      obtain ⟨hmod, hmodn⟩ := digitChar_spec (k := n % 10) (by omega)
      refine ⟨?_, by simp, ?_⟩
      · rw [List.all_append]
        simp [hrec.1, hmod]
      · rw [digitsVal_append_singleton, hrec.2.2, hmodn]
        omega

theorem natDigits_spec (n : Nat) :
    (natDigits n).all Char.isDigit = true ∧
    natDigits n ≠ [] ∧
    digitsVal (natDigits n) = n :=
  natDigitsAux_spec (n + 1) n (Nat.lt_succ_self n)

theorem natDigits_cons (n : Nat) :
    ∃ d t, natDigits n = d :: t ∧ d.isDigit = true := by
  obtain ⟨hall, hne, _⟩ := natDigits_spec n
  cases hcons : natDigits n with
  | nil => exact absurd hcons hne
  | cons d t =>
    rw [hcons, List.all_cons, Bool.and_eq_true] at hall
    exact ⟨d, t, rfl, hall.1⟩

theorem delim_head_facts {rest : List Char} (h : delim rest = true) :
    ∀ c, rest.head? = some c →
      c.isDigit = false ∧ isJsonWs c = false ∧ c ≠ '.' ∧ c ≠ 'e' ∧ c ≠ 'E' ∧
      c ≠ '+' ∧ c ≠ '-' ∧ c ≠ '"' ∧ c ≠ '[' ∧ c ≠ '\x7b' ∧ c ≠ 'n' ∧
      c ≠ 't' ∧ c ≠ 'f' := by
  intro c hc
  cases rest with
  | nil => cases hc
  | cons a t =>
    cases hc
    unfold delim at h
    simp only [Bool.or_eq_true, decide_eq_true_eq] at h
    rcases h with (h | h) | h <;> subst h <;> exact ⟨by decide, by decide, by decide,
      by decide, by decide, by decide, by decide, by decide, by decide, by decide,
      by decide, by decide, by decide⟩

theorem parseNumber_digits (m : Nat) (rest : List Char) (hrest : delim rest = true) :
    parseNumber (natDigits m ++ rest) = some (Int.ofNat m, rest) := by
  obtain ⟨hall, hne, hval⟩ := natDigits_spec m
  obtain ⟨d, t, hcons, hd⟩ := natDigits_cons m
  have hdfacts := delim_head_facts hrest
  have htd := takeWhile_dropWhile_append (natDigits m) rest hall
    (fun c hc => (hdfacts c hc).1)
  have hhead : (natDigits m ++ rest).head? = some d := by
    rw [hcons]; rfl
  have hneg : ¬((natDigits m ++ rest).head? = some '-') := by
    rw [hhead]
    simp only [Option.some.injEq]
    exact digit_char_ne hd (by decide)
  have hdot : ¬(rest.head? = some '.') := fun e => (hdfacts '.' e).2.2.1 rfl
  have hee : ¬(rest.head? = some 'e' ∨ rest.head? = some 'E') := by
    rintro (e | e)
    · exact (hdfacts 'e' e).2.2.2.1 rfl
    · exact (hdfacts 'E' e).2.2.2.2.1 rfl
  simp only [parseNumber, if_neg hneg]
  rw [htd.1, htd.2]
  rw [if_neg (by simp only [List.isEmpty_iff]; exact hne)]
  rw [if_neg hdot, if_neg hee, hval]

theorem parseNumber_renderInt (n : Int) (rest : List Char) (hrest : delim rest = true) :
    parseNumber (renderInt n ++ rest) = some (n, rest) := by
  unfold renderInt
  by_cases hn : n < 0
  · rw [if_pos hn]
    obtain ⟨hall, hne, hval⟩ := natDigits_spec n.natAbs
    have hdfacts := delim_head_facts hrest
    have htd := takeWhile_dropWhile_append (natDigits n.natAbs) rest hall
      (fun c hc => (hdfacts c hc).1)
    have hdot : ¬(rest.head? = some '.') := fun e => (hdfacts '.' e).2.2.1 rfl
    have hee : ¬(rest.head? = some 'e' ∨ rest.head? = some 'E') := by
      rintro (e | e)
      · exact (hdfacts 'e' e).2.2.2.1 rfl
      · exact (hdfacts 'E' e).2.2.2.2.1 rfl
    have hx : ('-' :: (natDigits n.natAbs ++ rest)).head? = some '-' := rfl
    simp only [List.cons_append, parseNumber]
    rw [if_pos hx, List.tail_cons]
    rw [htd.1, htd.2]
    rw [if_neg (by simp only [List.isEmpty_iff]; exact hne)]
    rw [if_neg hdot, if_neg hee, if_pos hx, hval]
    have hcast : -(Int.ofNat n.natAbs) = n := by
      rw [Int.ofNat_eq_natCast]; omega
    rw [hcast]
  · rw [if_neg hn]
    rw [parseNumber_digits n.toNat rest hrest]
    have hcast : Int.ofNat n.toNat = n := by
      rw [Int.ofNat_eq_natCast]; omega
    rw [hcast]

theorem parseStrBody_escape_cons (e ec : Char) (X : List Char)
    (hu : ¬(e = 'u')) (he : unescapeChar e = some ec) :
    parseStrBody ('\\' :: e :: X) =
      (parseStrBody X).bind (fun p => some (ec :: p.1, p.2)) := by
  rw [parseStrBody.eq_def]
  simp only
  rw [if_neg hu, he]
  rfl

theorem parseStrBody_u_escape (h1 h2 h3 h4 : Char) (X : List Char) :
    parseStrBody ('\\' :: 'u' :: h1 :: h2 :: h3 :: h4 :: X) =
      (hex4 h1 h2 h3 h4).bind (fun v =>
        if v < 55296 ∨ (57344 ≤ v ∧ v < 1114112) then
          (parseStrBody X).bind (fun p => some (Char.ofNat v :: p.1, p.2))
        else none) := by
  rw [parseStrBody.eq_def]
  simp only
  rfl

theorem parseStrBody_plain_cons (c : Char) (X : List Char)
    (h1 : ¬(c = '"')) (h2 : ¬(c = '\\')) (h3 : ¬(c.toNat < 32)) :
    parseStrBody (c :: X) =
      (parseStrBody X).bind (fun p => some (c :: p.1, p.2)) := by
  rw [parseStrBody.eq_def]
  simp only
  rw [if_neg h1, if_neg h2, if_neg h3]
  rfl

theorem hex4_00 (h l : Nat) (hh : h < 16) (hl : l < 16) :
    hex4 '0' '0' (hexDigitChar h) (hexDigitChar l) =
      some (((0 * 16 + 0) * 16 + h) * 16 + l) := by
  unfold hex4
  rw [show hexDigitVal '0' = some 0 from rfl, hexDigitVal_hexDigitChar hh,
    hexDigitVal_hexDigitChar hl]
  rfl

theorem parseStrBody_escChars :
    ∀ l rest, parseStrBody (escChars l ++ '"' :: rest) = some (l, rest) := by
  intro l
  induction l with
  | nil =>
    intro rest
    rw [show escChars [] ++ '"' :: rest = '"' :: rest from rfl]
    rw [parseStrBody.eq_def]
    simp only
    rw [if_pos trivial]
  | cons c l ih =>
    intro rest
    rw [show escChars (c :: l) = escapeChar c ++ escChars l from rfl, List.append_assoc]
    by_cases h1 : c = '"'
    · subst h1
      rw [show escapeChar '"' = ['\\', '"'] from rfl, List.cons_append, List.cons_append,
        List.nil_append, parseStrBody_escape_cons '"' '"' _ (by decide) rfl, ih rest]
      rfl
    by_cases h2 : c = '\\'
    · subst h2
      rw [show escapeChar '\\' = ['\\', '\\'] from rfl, List.cons_append, List.cons_append,
        List.nil_append, parseStrBody_escape_cons '\\' '\\' _ (by decide) rfl, ih rest]
      rfl
    by_cases h3 : c = Char.ofNat 8
    · subst h3
      rw [show escapeChar (Char.ofNat 8) = ['\\', 'b'] from rfl, List.cons_append,
        List.cons_append, List.nil_append,
        parseStrBody_escape_cons 'b' (Char.ofNat 8) _ (by decide) rfl, ih rest]
      rfl
    by_cases h4 : c = '\t'
    · subst h4
      rw [show escapeChar '\t' = ['\\', 't'] from rfl, List.cons_append, List.cons_append,
        List.nil_append, parseStrBody_escape_cons 't' '\t' _ (by decide) rfl, ih rest]
      rfl
    by_cases h5 : c = '\n'
    · subst h5
      rw [show escapeChar '\n' = ['\\', 'n'] from rfl, List.cons_append, List.cons_append,
        List.nil_append, parseStrBody_escape_cons 'n' '\n' _ (by decide) rfl, ih rest]
      rfl
    by_cases h6 : c = Char.ofNat 12
    · subst h6
      rw [show escapeChar (Char.ofNat 12) = ['\\', 'f'] from rfl, List.cons_append,
        List.cons_append, List.nil_append,
        parseStrBody_escape_cons 'f' (Char.ofNat 12) _ (by decide) rfl, ih rest]
      rfl
    by_cases h7 : c = '\r'
    · subst h7
      rw [show escapeChar '\r' = ['\\', 'r'] from rfl, List.cons_append, List.cons_append,
        List.nil_append, parseStrBody_escape_cons 'r' '\r' _ (by decide) rfl, ih rest]
      rfl
    by_cases h8 : c.toNat < 32
    · have hesc : escapeChar c =
          ['\\', 'u', '0', '0', hexDigitChar (c.toNat / 16), hexDigitChar (c.toNat % 16)] := by
        unfold escapeChar
        rw [if_neg h1, if_neg h2, if_neg h3, if_neg h4, if_neg h5, if_neg h6, if_neg h7,
          if_pos h8]
      rw [hesc]
      simp only [List.cons_append, List.nil_append]
      rw [parseStrBody_u_escape, hex4_00 _ _ (by omega) (by omega),
        show (((0 * 16 + 0) * 16 + c.toNat / 16) * 16 + c.toNat % 16) = c.toNat from by omega]
      rw [show ∀ x : Nat, ∀ f : Nat → Option (List Char × List Char),
        (some x).bind f = f x from fun x f => rfl]
      rw [if_pos (Or.inl (by omega))]
      rw [ih rest]
      rw [show ∀ p : List Char × List Char,
        ∀ f : List Char × List Char → Option (List Char × List Char),
        (some p).bind f = f p from fun p f => rfl]
      rw [Char.ofNat_toNat]
    · have hesc : escapeChar c = [c] := by
        unfold escapeChar
        rw [if_neg h1, if_neg h2, if_neg h3, if_neg h4, if_neg h5, if_neg h6, if_neg h7,
          if_neg h8]
      rw [hesc, List.cons_append, List.nil_append]
      rw [parseStrBody_plain_cons c _ h1 h2 h8, ih rest]
      rfl

theorem skipWs_cons_not_ws {c : Char} (h : isJsonWs c = false) (t : List Char) :
    skipWs (c :: t) = c :: t := by
  simp [skipWs, List.dropWhile_cons, h]

theorem valueStart_facts {c : Char} (h : isValueStart c = true) :
    isJsonWs c = false ∧ ¬(c = ']') ∧ ¬(c = '\x7d') ∧ ¬(c = ',') ∧ ¬(c = ':') := by
  unfold isValueStart at h
  simp only [Bool.or_eq_true, decide_eq_true_eq] at h
  rcases h with ((((((h | h) | h) | h) | h) | h) | h) | h
  · subst h; exact ⟨by decide, by decide, by decide, by decide, by decide⟩
  · subst h; exact ⟨by decide, by decide, by decide, by decide, by decide⟩
  · subst h; exact ⟨by decide, by decide, by decide, by decide, by decide⟩
  · subst h; exact ⟨by decide, by decide, by decide, by decide, by decide⟩
  · subst h; exact ⟨by decide, by decide, by decide, by decide, by decide⟩
  · subst h; exact ⟨by decide, by decide, by decide, by decide, by decide⟩
  · subst h; exact ⟨by decide, by decide, by decide, by decide, by decide⟩
  · exact ⟨digit_not_ws h, digit_char_ne h (by decide), digit_char_ne h (by decide),
      digit_char_ne h (by decide), digit_char_ne h (by decide)⟩

theorem render_starts (j : Json) :
    ∃ c t, renderJson j = c :: t ∧ isValueStart c = true := by
  cases j with
  | null => exact ⟨'n', _, rfl, by decide⟩
  | bool b =>
    cases b
    · exact ⟨'f', _, rfl, by decide⟩
    · exact ⟨'t', _, rfl, by decide⟩
  | num n =>
    show ∃ c t, renderInt n = c :: t ∧ isValueStart c = true
    unfold renderInt
    by_cases hn : n < 0
    · rw [if_pos hn]
      exact ⟨'-', _, rfl, by decide⟩
    · rw [if_neg hn]
      obtain ⟨d, t, hcons, hd⟩ := natDigits_cons n.toNat
      exact ⟨d, t, hcons, by simp [isValueStart, hd]⟩
  | str s => exact ⟨'"', _, rfl, by decide⟩
  | arr xs =>
    cases xs
    · exact ⟨'[', _, rfl, by decide⟩
    · exact ⟨'[', _, rfl, by decide⟩
  | obj fs =>
    cases fs
    · exact ⟨'\x7b', _, rfl, by decide⟩
    · exact ⟨'\x7b', _, rfl, by decide⟩

theorem fuelV_pos (j : Json) : 1 ≤ fuelV j := by
  cases j <;> simp [fuelV]

theorem delim_elems (xs : List Json) (rest : List Char) :
    delim (renderElems xs ++ ']' :: rest) = true := by
  cases xs <;> rfl

theorem delim_members (fs : List (String × Json)) (rest : List Char) :
    delim (renderMembers fs ++ '\x7d' :: rest) = true := by
  cases fs <;> rfl

theorem parse_render_main : ∀ fuel : Nat,
    (∀ j rest, fuelV j ≤ fuel → delim rest = true →
      parseVal fuel (renderJson j ++ rest) = some (j, rest)) ∧
    (∀ x xs rest, fuelE (x :: xs) ≤ fuel →
      parseElems fuel (renderJson x ++ (renderElems xs ++ ']' :: rest)) =
        some (x :: xs, rest)) ∧
    (∀ k v fs rest, fuelM ((k, v) :: fs) ≤ fuel →
      parseMembers fuel
          (renderString k ++ ':' :: (renderJson v ++ (renderMembers fs ++ '\x7d' :: rest))) =
        some ((k, v) :: fs, rest)) := by
  intro fuel
  induction fuel with
  | zero =>
    refine ⟨fun j rest hf _ => ?_, fun x xs rest hf => ?_, fun k v fs rest hf => ?_⟩
    · have := fuelV_pos j; omega
    · simp [fuelE] at hf
    · simp [fuelM] at hf
  | succ fuel ih =>
    obtain ⟨ihV, ihE, ihM⟩ := ih
    refine ⟨fun j rest hf hd => ?_, fun x xs rest hf => ?_, fun k v fs rest hf => ?_⟩
    · cases j with
      | null => rfl
      | bool b => cases b <;> rfl
      | num n =>
        by_cases hn : n < 0
        · rw [show renderJson (.num n) = renderInt n from rfl,
            show renderInt n = '-' :: natDigits n.natAbs from by
              unfold renderInt; rw [if_pos hn],
            List.cons_append, parseVal.eq_def]
          simp only
          rw [skipWs_cons_not_ws (by decide)]
          simp only
          rw [← List.cons_append,
            show '-' :: natDigits n.natAbs = renderInt n from by
              unfold renderInt; rw [if_pos hn],
            parseNumber_renderInt n rest hd]
          rfl
        · obtain ⟨d, t, hcons, hdig⟩ := natDigits_cons n.toNat
          rw [show renderJson (.num n) = renderInt n from rfl,
            show renderInt n = natDigits n.toNat from by
              unfold renderInt; rw [if_neg hn],
            hcons, List.cons_append, parseVal.eq_def]
          simp only
          rw [skipWs_cons_not_ws (digit_not_ws hdig)]
          simp only
          rw [if_neg (digit_char_ne hdig (by decide)),
            if_neg (digit_char_ne hdig (by decide)),
            if_neg (digit_char_ne hdig (by decide)),
            if_neg (digit_char_ne hdig (by decide)),
            if_neg (digit_char_ne hdig (by decide)),
            if_neg (digit_char_ne hdig (by decide))]
          rw [← List.cons_append, ← hcons,
            show natDigits n.toNat = renderInt n from by
              unfold renderInt; rw [if_neg hn],
            parseNumber_renderInt n rest hd]
          rfl
      | str s =>
        rw [show renderJson (.str s) ++ rest = '"' :: (escChars s.data ++ '"' :: rest) from by
          simp [renderJson, renderString]]
        rw [parseVal.eq_def]
        simp only
        rw [skipWs_cons_not_ws (by decide)]
        simp only
        rw [parseStrBody_escChars s.data rest]
        rfl
      | arr xs =>
        cases xs with
        | nil => rfl
        | cons x xs2 =>
          rw [show renderJson (.arr (x :: xs2)) ++ rest =
              '[' :: (renderJson x ++ (renderElems xs2 ++ ']' :: rest)) from by
            simp [renderJson, List.append_assoc]]
          rw [parseVal.eq_def]
          simp only
          rw [skipWs_cons_not_ws (by decide)]
          simp only
          rw [if_neg (show ¬(('[' : Char) = '"') from by decide)]
          rw [if_pos trivial]
          obtain ⟨c0, t0, hx, hs0⟩ := render_starts x
          obtain ⟨hw0, hb0, _, _, _⟩ := valueStart_facts hs0
          rw [hx, List.cons_append, skipWs_cons_not_ws hw0]
          simp only [List.head?_cons]
          rw [if_neg (fun e => hb0 (Option.some.inj e))]
          rw [← List.cons_append, ← hx,
            ihE x xs2 rest (by simp only [fuelV, fuelE] at hf ⊢; omega)]
          rfl
      | obj fs =>
        cases fs with
        | nil => rfl
        | cons f fs2 =>
          obtain ⟨k, v⟩ := f
          rw [show renderJson (.obj ((k, v) :: fs2)) ++ rest =
              '\x7b' :: (renderString k ++ ':' ::
                (renderJson v ++ (renderMembers fs2 ++ '\x7d' :: rest))) from by
            simp [renderJson, List.append_assoc]]
          rw [parseVal.eq_def]
          simp only
          rw [skipWs_cons_not_ws (by decide)]
          simp only
          rw [if_neg (show ¬(('\x7b' : Char) = '"') from by decide)]
          rw [if_neg (show ¬(('\x7b' : Char) = '[') from by decide)]
          rw [if_pos trivial]
          rw [show renderString k ++ ':' ::
              (renderJson v ++ (renderMembers fs2 ++ '\x7d' :: rest)) =
              '"' :: (escChars k.data ++ '"' :: (':' ::
                (renderJson v ++ (renderMembers fs2 ++ '\x7d' :: rest)))) from by
            simp [renderString]]
          rw [skipWs_cons_not_ws (by decide)]
          simp only [List.head?_cons]
          rw [if_neg (by decide)]
          rw [show '"' :: (escChars k.data ++ '"' :: (':' ::
              (renderJson v ++ (renderMembers fs2 ++ '\x7d' :: rest)))) =
              renderString k ++ ':' ::
                (renderJson v ++ (renderMembers fs2 ++ '\x7d' :: rest)) from by
            simp [renderString]]
          rw [ihM k v fs2 rest (by simp only [fuelV, fuelM] at hf ⊢; omega)]
          rfl
    · have hfx : fuelV x ≤ fuel := by simp only [fuelE] at hf; omega
      rw [parseElems.eq_def]
      simp only
      rw [ihV x _ hfx (delim_elems xs rest)]
      simp only [Option.bind_eq_bind, Option.some_bind]
      cases xs with
      | nil =>
        rw [show renderElems ([] : List Json) ++ ']' :: rest = ']' :: rest from rfl]
        rw [skipWs_cons_not_ws (by decide)]
        simp
      | cons y ys =>
        rw [show renderElems (y :: ys) ++ ']' :: rest =
            ',' :: (renderJson y ++ (renderElems ys ++ ']' :: rest)) from by
          simp [renderElems, List.append_assoc]]
        rw [skipWs_cons_not_ws (by decide)]
        simp only [List.head?_cons]
        rw [if_pos trivial]
        rw [show (',' :: (renderJson y ++ (renderElems ys ++ ']' :: rest))).tail =
            renderJson y ++ (renderElems ys ++ ']' :: rest) from rfl]
        rw [ihE y ys rest (by simp only [fuelE] at hf ⊢; omega)]
        rfl
    · have hfv : fuelV v ≤ fuel := by simp only [fuelM] at hf; omega
      rw [parseMembers.eq_def]
      simp only
      rw [show renderString k ++ ':' ::
          (renderJson v ++ (renderMembers fs ++ '\x7d' :: rest)) =
          '"' :: (escChars k.data ++ '"' :: (':' ::
            (renderJson v ++ (renderMembers fs ++ '\x7d' :: rest)))) from by
        simp [renderString]]
      rw [skipWs_cons_not_ws (by decide)]
      simp only
      rw [parseStrBody_escChars k.data]
      simp only [Option.bind_eq_bind, Option.some_bind]
      rw [skipWs_cons_not_ws (by decide)]
      simp only [List.head?_cons]
      rw [if_pos trivial]
      rw [show (':' :: (renderJson v ++ (renderMembers fs ++ '\x7d' :: rest))).tail =
          renderJson v ++ (renderMembers fs ++ '\x7d' :: rest) from rfl]
      rw [ihV v _ hfv (delim_members fs rest)]
      simp only [Option.bind_eq_bind, Option.some_bind]
      cases fs with
      | nil =>
        rw [show renderMembers ([] : List (String × Json)) ++ '\x7d' :: rest =
            '\x7d' :: rest from rfl]
        rw [skipWs_cons_not_ws (by decide)]
        simp
      | cons f2 fs2 =>
        obtain ⟨k2, v2⟩ := f2
        rw [show renderMembers ((k2, v2) :: fs2) ++ '\x7d' :: rest =
            ',' :: (renderString k2 ++ ':' ::
              (renderJson v2 ++ (renderMembers fs2 ++ '\x7d' :: rest))) from by
          simp [renderMembers, List.append_assoc]]
        rw [skipWs_cons_not_ws (by decide)]
        simp only [List.head?_cons]
        rw [if_pos trivial]
        rw [show (',' :: (renderString k2 ++ ':' ::
            (renderJson v2 ++ (renderMembers fs2 ++ '\x7d' :: rest)))).tail =
            renderString k2 ++ ':' ::
              (renderJson v2 ++ (renderMembers fs2 ++ '\x7d' :: rest)) from rfl]
        rw [ihM k2 v2 fs2 rest (by simp only [fuelM] at hf ⊢; omega)]
        rfl

theorem fuelV_le_length : ∀ bound : Nat,
    (∀ j, fuelV j ≤ bound → fuelV j ≤ (renderJson j).length + 1) ∧
    (∀ xs, fuelE xs ≤ bound → fuelE xs ≤ (renderElems xs).length + 1) ∧
    (∀ fs, fuelM fs ≤ bound → fuelM fs ≤ (renderMembers fs).length + 1) := by
  intro bound
  induction bound with
  | zero =>
    refine ⟨fun j h => ?_, fun xs h => ?_, fun fs h => ?_⟩
    · have := fuelV_pos j; omega
    · cases xs with
      | nil => simp [fuelE]
      | cons x xs2 => simp [fuelE] at h
    · cases fs with
      | nil => simp [fuelM]
      | cons f fs2 => simp [fuelM] at h
  | succ bound ih =>
    obtain ⟨ihV, ihE, ihM⟩ := ih
    refine ⟨fun j h => ?_, fun xs h => ?_, fun fs h => ?_⟩
    · cases j with
      | null => simp [fuelV]
      | bool b => simp [fuelV]
      | num n => simp [fuelV]
      | str s => simp [fuelV]
      | arr xs =>
        have hE : fuelE xs ≤ bound := by simp only [fuelV] at h; omega
        have hb := ihE xs hE
        cases xs with
        | nil => simp [fuelV, fuelE, renderJson]
        | cons x xs2 =>
          simp only [fuelV, renderJson, List.length_cons, List.length_append]
          simp only [renderElems, List.length_cons, List.length_append] at hb
          simp only [fuelE] at hb ⊢
          omega
      | obj fs =>
        have hM : fuelM fs ≤ bound := by simp only [fuelV] at h; omega
        have hb := ihM fs hM
        cases fs with
        | nil => simp [fuelV, fuelM, renderJson]
        | cons f fs2 =>
          simp only [fuelV, renderJson, List.length_cons, List.length_append]
          simp only [renderMembers, List.length_cons, List.length_append] at hb
          simp only [fuelM] at hb ⊢
          omega
    · cases xs with
      | nil => simp [fuelE]
      | cons x xs2 =>
        have h1 : fuelV x ≤ bound ∧ fuelE xs2 ≤ bound := by
          simp only [fuelE] at h
          omega
        have hx := ihV x h1.1
        have hxs := ihE xs2 h1.2
        simp only [fuelE, renderElems, List.length_cons, List.length_append] at *
        omega
    · cases fs with
      | nil => simp [fuelM]
      | cons f fs2 =>
        have h1 : fuelV f.2 ≤ bound ∧ fuelM fs2 ≤ bound := by
          simp only [fuelM] at h
          omega
        have hv := ihV f.2 h1.1
        have hfs := ihM fs2 h1.2
        simp only [fuelM, renderMembers, List.length_cons, List.length_append] at *
        omega

/-- `JSON.parse` inverts `JSON.stringify` on every JSON value: parsing a
rendered document recovers the document. -/
theorem Json.parse_render (j : Json) : Json.parse (Json.render j) = some j := by
  have hfuel : fuelV j ≤ 2 * (renderJson j).length + 2 := by
    have := (fuelV_le_length (fuelV j)).1 j (le_refl _)
    omega
  have hmain := (parse_render_main (2 * (renderJson j).length + 2)).1 j [] hfuel rfl
  rw [List.append_nil] at hmain
  unfold Json.parse
  rw [show (Json.render j).length = (renderJson j).length from rfl,
    show (Json.render j).data = renderJson j from rfl, hmain]
  rfl

/-! ### Backup codec round-trip -/

theorem mapM_str_roundtrip (l : List String) :
    (l.map Json.str).mapM decStr = some l := by
  induction l with
  | nil => rfl
  | cons s l ih =>
    rw [List.map_cons, List.mapM_cons, show decStr (Json.str s) = some s from rfl, ih]
    rfl

theorem decodeSettings_encodeSettings (s : AppSettings) :
    decodeSettings (encodeSettings s) = s := by
  rcases s with ⟨o, c⟩
  cases o <;> cases c <;> rfl

theorem decodeRecord_encodeRecord (r : MenuRecord) :
    decodeRecord (encodeRecord r) = some r := by
  rcases r with ⟨id, title, description, ingredients, steps, time, theme, pp, ca, ii, ad⟩
  cases ad with
  | none =>
    calc decodeRecord (encodeRecord
          ⟨id, title, description, ingredients, steps, time, theme, pp, ca, ii, none⟩)
        = ((ingredients.map Json.str).mapM decStr).bind (fun ing =>
            ((steps.map Json.str).mapM decStr).bind (fun st =>
              ((ii.map Json.str).mapM decStr).bind (fun i2 =>
                some ⟨id, title, description, ing, st, time, theme, pp, ca, i2, none⟩))) :=
          rfl
      _ = some ⟨id, title, description, ingredients, steps, time, theme, pp, ca, ii, none⟩ := by
          rw [mapM_str_roundtrip, mapM_str_roundtrip, mapM_str_roundtrip]
          rfl
  | some b =>
    calc decodeRecord (encodeRecord
          ⟨id, title, description, ingredients, steps, time, theme, pp, ca, ii, some b⟩)
        = ((ingredients.map Json.str).mapM decStr).bind (fun ing =>
            ((steps.map Json.str).mapM decStr).bind (fun st =>
              ((ii.map Json.str).mapM decStr).bind (fun i2 =>
                some ⟨id, title, description, ing, st, time, theme, pp, ca, i2, some b⟩))) :=
          rfl
      _ = some ⟨id, title, description, ingredients, steps, time, theme, pp, ca, ii, some b⟩ := by
          rw [mapM_str_roundtrip, mapM_str_roundtrip, mapM_str_roundtrip]
          rfl

theorem importMenusLoop_encodes :
    ∀ (l acc : List MenuRecord), UniqueIds (acc ++ l) →
      importMenusLoop acc (l.map encodeRecord) = (acc ++ l, true) := by
  intro l
  induction l with
  | nil =>
    intro acc _
    simp [importMenusLoop]
  | cons r l ih =>
    intro acc h
    rw [List.map_cons]
    unfold importMenusLoop
    rw [decodeRecord_encodeRecord r]
    have hfresh : acc.any (fun m => m.id = r.id) = false := by
      rw [List.any_eq_false]
      intro x hx
      have := (List.pairwise_append.mp h).2.2 x hx r (by simp)
      simpa using this
    unfold menuDB.add
    simp only
    rw [hfresh]
    rw [if_neg (by simp)]
    have h2 : UniqueIds ((acc ++ [r]) ++ l) := by
      rw [← List.append_cons]
      exact h
    simp only
    rw [ih (acc ++ [r]) h2, ← List.append_cons]

theorem getAll_uniqueIds {ms : List MenuRecord} (h : UniqueIds ms) :
    UniqueIds (menuDB.getAll ms) := by
  have hp : (menuDB.getAll ms).Perm ms := List.perm_insertionSort _ _
  exact (List.Perm.pairwise_iff (fun hab => Ne.symm hab) hp).mpr h

theorem importFromData_exportObj (st : DBState) (d : String) (h : UniqueIds st.menus) :
    importFromData (exportObj st d) ⟨[], none⟩ =
      (⟨menuDB.getAll st.menus, some (settingsDB.get st.settings)⟩, .ok) := by
  have hu2 : UniqueIds ([] ++ menuDB.getAll st.menus) := by
    simpa using getAll_uniqueIds h
  unfold importFromData
  rw [show (exportObj st d).memberOrThrow "menus" =
      Except.ok (some (Json.arr ((menuDB.getAll st.menus).map encodeRecord))) from rfl]
  simp only
  rw [importMenusLoop_encodes (menuDB.getAll st.menus) [] hu2]
  simp only [List.nil_append]
  rw [if_pos trivial]
  rw [show (exportObj st d).member "settings" =
      some (encodeSettings (settingsDB.get st.settings)) from rfl]
  simp only
  rw [show (encodeSettings (settingsDB.get st.settings)).truthy = true from rfl]
  rw [if_pos rfl]
  rw [decodeSettings_encodeSettings]
  rfl

/-- Claim C3: backup round-trip law — importing `exportData()` of any
store state into a fresh empty store succeeds, yields a store whose
`getAll()` output is a permutation of the original store's `getAll()`
output, and restores the settings object wholesale (under the store
invariant that record ids are unique, which the `id` key path enforces). -/
theorem claim_c3_roundtrip (st : DBState) (d : String) (h : UniqueIds st.menus) :
    (importData (exportData st d) ⟨[], none⟩).2 = .ok ∧
    (menuDB.getAll (importData (exportData st d) ⟨[], none⟩).1.menus).Perm
      (menuDB.getAll st.menus) ∧
    settingsDB.get (importData (exportData st d) ⟨[], none⟩).1.settings =
      settingsDB.get st.settings := by
  have he : importData (exportData st d) ⟨[], none⟩ =
      (⟨menuDB.getAll st.menus, some (settingsDB.get st.settings)⟩, .ok) := by
    unfold importData exportData
    rw [Json.parse_render]
    exact importFromData_exportObj st d h
  rw [he]
  exact ⟨rfl, List.perm_insertionSort _ _, rfl⟩

/-- Witness for C3: the round trip at the concrete two-record store with
an OpenAI key. -/
theorem claim_c3_roundtrip_witness :
    UniqueIds stAB.menus ∧
    ((importData (exportData stAB "2024-01-01") ⟨[], none⟩).2 = .ok ∧
     (menuDB.getAll (importData (exportData stAB "2024-01-01") ⟨[], none⟩).1.menus).Perm
       (menuDB.getAll stAB.menus) ∧
     settingsDB.get (importData (exportData stAB "2024-01-01") ⟨[], none⟩).1.settings =
       settingsDB.get stAB.settings) :=
  ⟨by unfold UniqueIds; decide, claim_c3_roundtrip stAB "2024-01-01" (by unfold UniqueIds; decide)⟩

/-- Claim C5 counterexample: the document `"\x7b\x7d"` — the empty JSON
object — parses but misses both required top-level fields, yet `importData`
reports success, not a format error, and the pre-existing (non-empty)
record table is destroyed: the clear runs before any field validation. -/
theorem claim_c5_counterexample :
    importData "\x7b\x7d" stAB = (⟨[], stAB.settings⟩, .ok) ∧ stAB.menus ≠ [] := by
  exact ⟨rfl, by decide⟩

/-- Claim C5 (amended): a document that fails to parse as JSON leaves the
store completely untouched and reports the format error; but field
validation happens only *after* the destructive clear — a parseable
object document with neither a `menus` nor a `settings` field empties
the record table and reports success. -/
theorem claim_c5_amended (s : String) (st : DBState) :
    (Json.parse s = none → importData s st = (st, .invalidFormat)) ∧
    (∀ fields : List (String × Json), Json.parse s = some (.obj fields) →
      (Json.obj fields).member "menus" = none →
      (Json.obj fields).member "settings" = none →
      importData s st = (⟨[], st.settings⟩, .ok)) := by
  constructor
  · intro h
    unfold importData
    rw [h]
  · intro fields hp hm hs
    unfold importData
    rw [hp]
    show importFromData (Json.obj fields) st = _
    unfold importFromData
    rw [show (Json.obj fields).memberOrThrow "menus" =
        Except.ok ((Json.obj fields).member "menus") from rfl]
    rw [hm, hs]
    rfl

/-- Witness for C5 (amended): the non-JSON document `"oops"` is refused
with the store untouched, and the empty-object document empties the
table while reporting success. -/
theorem claim_c5_amended_witness :
    importData "oops" stAB = (stAB, .invalidFormat) ∧
    importData "\x7b\x7d" stAB = (⟨[], stAB.settings⟩, .ok) :=
  ⟨(claim_c5_amended "oops" stAB).1 rfl,
   (claim_c5_amended "\x7b\x7d" stAB).2 [] rfl rfl rfl⟩

/-- Claim C7 counterexample: the exported `menus` field is *not* the
record list as stored — on the concrete store whose records were stored
oldest-first, the document's `menus` differs from the stored order
(`exportData` serializes `getAll()`'s re-sorted output). -/
theorem claim_c7_counterexample :
    (exportObj stAB "2024-01-01").member "menus" ≠
      some (Json.arr (stAB.menus.map encodeRecord)) := by
  intro h
  rw [show (exportObj stAB "2024-01-01").member "menus" =
      some (Json.arr [encodeRecord recB, encodeRecord recA]) from rfl] at h
  rw [show stAB.menus.map encodeRecord =
      [encodeRecord recA, encodeRecord recB] from rfl] at h
  rw [show encodeRecord recA = Json.obj
      ([("id", .str "a"), ("title", .str "Stir-fry"),
        ("description", .str "quick veg stir-fry"),
        ("ingredients", .arr [.str "vegetables"]), ("steps", .arr [.str "fry"]),
        ("time", .num 15), ("theme", .str "春"), ("peoplePattern", .str "夫婦2人"),
        ("createdAt", .num 0),
        ("inputIngredients", .arr [.str "vegetables"])]) from rfl] at h
  rw [show encodeRecord recB = Json.obj
      ([("id", .str "b"), ("title", .str "Soup"), ("description", .str "warm soup"),
        ("ingredients", .arr [.str "water"]), ("steps", .arr [.str "boil"]),
        ("time", .num 20), ("theme", .str "冬"), ("peoplePattern", .str "中高生3人"),
        ("createdAt", .num 1), ("inputIngredients", .arr [.str "water"]),
        ("isAdopted", .bool true)]) from rfl] at h
  simp at h

/-- Claim C7 (amended): the exported document's `menus` field is the
record list re-sorted newest-first by `getAll()` (not as stored), with
one element per stored record, and its `settings` field is the current
settings object; on the concrete two-record store with
`openaiKey = "sk-test"` the document has two menu entries and the
settings object carries `openaiKey = "sk-test"`. -/
theorem claim_c7_amended (st : DBState) (d : String) :
    ((exportObj st d).member "menus" =
       some (Json.arr ((menuDB.getAll st.menus).map encodeRecord)) ∧
     ((menuDB.getAll st.menus).map encodeRecord).length = st.menus.length ∧
     (exportObj st d).member "settings" =
       some (encodeSettings (settingsDB.get st.settings))) ∧
    (((menuDB.getAll stAB.menus).map encodeRecord).length = 2 ∧
     (encodeSettings (settingsDB.get stAB.settings)).member "openaiKey" =
       some (Json.str "sk-test")) := by
  refine ⟨⟨rfl, ?_, rfl⟩, rfl, rfl⟩
  rw [List.length_map]
  exact (List.perm_insertionSort _ _).length_eq
